import Mathlib

set_option maxHeartbeats 1000000
set_option maxRecDepth 16384

namespace TastyCooking

/-! ## HTML document model

A parsed HTML document as produced by an HTML parser: elements carry a tag
name, the list of CSS class tokens of their `class` attribute (empty when the
attribute is absent), and children; text and comment nodes carry their string
content. Characters are modelled as `List Char`. -/

inductive Node where
  | text (s : List Char)
  | comment (s : List Char)
  | element (tag : List Char) (classes : List (List Char)) (children : List Node)

/-- Occurrence search: index of the first occurrence of `needle` in `hay`
(Python `in` / leftmost substring search). -/
def findSub (needle : List Char) : List Char → Option Nat
  | [] => if needle.isPrefixOf ([] : List Char) then some 0 else none
  | c :: cs =>
    if needle.isPrefixOf (c :: cs) then some 0
    else (findSub needle cs).map (· + 1)

/-- Python `needle in hay` (substring containment). -/
def containsSub (needle hay : List Char) : Bool :=
  (findSub needle hay).isSome

mutual
/-- Model of `get_text()`: concatenation of all descendant text content
(comments excluded). -/
def getTextN : Node → List Char
  | .text s => s
  | .comment _ => []
  | .element _ _ ch => getTextL ch
def getTextL : List Node → List Char
  | [] => []
  | n :: ns => getTextN n ++ getTextL ns
end

/-- First following sibling that is a `div` element
(`find_next_sibling('div')` applied to the node whose following siblings are
the given list). -/
def findFirstDiv : List Node → Option Node
  | [] => none
  | .element t cls ch :: rest =>
    if t = "div".data then some (.element t cls ch) else findFirstDiv rest
  | _ :: rest => findFirstDiv rest

/-- The marker phrase looked for in string/comment nodes. -/
def tagsSectionMarker : List Char := "Tags Section".data

mutual
/-- For the children of one element, return, in document order, one entry per
descendant string/comment node containing the marker phrase: the entry is that
node's parent's first following sibling `div` (or `none`). The second argument
is the first following sibling `div` of the element whose children these are.
This models iterating
`soup.find_all(string=lambda text: ... "Tags Section" in text)` and taking
`comment.find_parent().find_next_sibling('div')` for each hit. -/
def cands : List Node → Option Node → List (Option Node)
  | [], _ => []
  | n :: rest, pnd => candsN n (findFirstDiv rest) pnd ++ cands rest pnd
/-- Candidates contributed by one node: `nextDiv` is the first `div` among
the node's own following siblings (the value for its children), `pnd` the one
for the node itself if it is a string/comment. -/
def candsN : Node → Option Node → Option Node → List (Option Node)
  | .text s, _, pnd => if containsSub tagsSectionMarker s then [pnd] else []
  | .comment s, _, pnd => if containsSub tagsSectionMarker s then [pnd] else []
  | .element _ _ ch, nextDiv, _ => cands ch nextDiv
end

/-- The loop `for comment in ...: tags_section = ...; if tags_section: break`
keeps the first non-`none` candidate; if every candidate is `none` (or there
is none at all) the result is `none`. -/
def firstSome : List (Option Node) → Option Node
  | [] => none
  | some n :: _ => some n
  | none :: rest => firstSome rest

/-- The class filter `lambda c: c and 'inline-flex' in c`: the parser hands
the filter each class token separately, and an absent class attribute (empty
token list) never matches. -/
def classMatches (classes : List (List Char)) : Bool :=
  classes.any (fun cl => containsSub "inline-flex".data cl)

mutual
/-- Model of `find_all('span', class_=...)` on a list of nodes: all descendant `span`
elements (document order, descending into matches as well) whose class list
passes the filter. -/
def matchingSpans : List Node → List Node
  | [] => []
  | n :: rest => matchingSpansN n ++ matchingSpans rest
def matchingSpansN : Node → List Node
  | .element t cls ch =>
    (if t = "span".data ∧ classMatches cls then [Node.element t cls ch] else [])
      ++ matchingSpans ch
  | _ => []
end

/-- Python whitespace test used by `str.strip()` (ASCII whitespace). -/
def isPySpace (c : Char) : Bool :=
  c = ' ' ∨ c = '\t' ∨ c = '\n' ∨ c = '\r' ∨ c = '\x0b' ∨ c = '\x0c'

/-- Python `str.strip()`. -/
def pyStrip (s : List Char) : List Char :=
  ((s.dropWhile isPySpace).reverse.dropWhile isPySpace).reverse

/-- The tag texts collected from a located tags-section `div`: the stripped
`get_text()` of each matching descendant span, keeping only non-empty texts
(`if tag_text: tags.append(tag_text)`). -/
def spanTexts : Node → List (List Char)
  | .element _ _ ch =>
    ((matchingSpans ch).map (fun sp => pyStrip (getTextN sp))).filter
      (fun t => !t.isEmpty)
  | _ => []

/-- Core of `extract_tags_from_recipe_page` on an already-parsed document (given as
the root's child list): locate the tags section; `none` when no marker
comment has a following-sibling `div` (the function returns `None`),
otherwise the collected tag texts. -/
def extractTags (doc : List Node) : Option (List (List Char)) :=
  match firstSome (cands doc none) with
  | none => none
  | some div => some (spanTexts div)

/-- What reading and parsing one recipe file can come to: an exception while
reading/parsing (with the exception's message), or a parsed document. -/
inductive RecipeInput where
  | failure (msg : List Char)
  | parsed (doc : List Node)

/-- The line printed by the `except` branch:
`f"Error processing \x7bfile_path\x7d: \x7be\x7d"`. -/
def errorLine (path msg : List Char) : List Char :=
  "Error processing ".data ++ path ++ ": ".data ++ msg

/-- Full `extract_tags_from_recipe_page`: result together with the lines it prints
to standard output. An exception is caught, logged, and turned into `none`. -/
def extractTagsFromRecipePage (path : List Char) :
    RecipeInput → Option (List (List Char)) × List (List Char)
  | .failure msg => (none, [errorLine path msg])
  | .parsed doc => (extractTags doc, [])

/-! ## Tag normalization (line 78 of the auditor) -/

/-- Python `str.lower()` (ASCII case folding suffices for this site's tags). -/
def pyLower (s : List Char) : List Char := s.map Char.toLower

/-- Python `str.replace(a, b)` for single characters. -/
def pyReplaceChar (a b : Char) (s : List Char) : List Char :=
  s.map (fun c => if c = a then b else c)

/-- Python `' '.join(parts)`. -/
def joinSpace : List (List Char) → List Char
  | [] => []
  | [t] => t
  | t :: u :: ts => t ++ ' ' :: joinSpace (u :: ts)

/-- Line 78: `' '.join([tag.lower().replace(' ', '-') for tag in recipe_tags])`. -/
def formatDataTags (tags : List (List Char)) : List Char :=
  joinSpace (tags.map (fun t => pyReplaceChar ' ' '-' (pyLower t)))

/-- The normalization rule in the spec's own words, written independently:
each tag lower-cased with its spaces replaced by hyphens, tags joined by
single spaces, original order preserved. -/
def specNormalize : List (List Char) → List Char
  | [] => []
  | [t] => t.map (fun c => if Char.toLower c = ' ' then '-' else Char.toLower c)
  | t :: rest =>
    t.map (fun c => if Char.toLower c = ' ' then '-' else Char.toLower c)
      ++ [' '] ++ specNormalize rest

/-! ## Index lookup (`extract_current_tags_from_index`)

The pattern `href="NAME"[^>]*data-tags="([^"]*)"` searched by `re.search`:
leftmost match, greedy `[^>]*` (longest first, with backtracking), capture
the greedy `[^"]*` run which must be closed by a quote. -/

/-- The literal part `data-tags="` following the `[^>]*` gap. -/
def dataTagsLit : List Char := "data-tags=\"".data

/-- Match `([^"]*)"` at the start of `s`: the capture is the maximal quote-free
prefix, and a closing quote must actually follow it. -/
def closeCapture (s : List Char) : Option (List Char) :=
  let cap := s.takeWhile (fun c => c ≠ '"')
  if cap.length < s.length then some cap else none

/-- Backtracking over the greedy `[^>]*`: try gap width `j` (largest first,
passed as the start value), then smaller widths, looking for the
`data-tags="` literal followed by a closed capture. -/
def tryGap (rest : List Char) : Nat → Option (List Char)
  | 0 =>
    if dataTagsLit.isPrefixOf rest then closeCapture (rest.drop dataTagsLit.length)
    else none
  | j + 1 =>
    match
      (if dataTagsLit.isPrefixOf (rest.drop (j + 1)) then
        closeCapture ((rest.drop (j + 1)).drop dataTagsLit.length)
      else none) with
    | some cap => some cap
    | none => tryGap rest j

/-- Attempt the part of the pattern after the `href="NAME"` literal: the
greedy `[^>]*` may span at most the maximal `>`-free run. -/
def attemptAfter (rest : List Char) : Option (List Char) :=
  tryGap rest (rest.takeWhile (fun c => c ≠ '>')).length

/-- Leftmost search: try a match starting at each position in turn. -/
def searchFrom (hrefLit : List Char) : List Char → Option (List Char)
  | [] => none
  | c :: cs =>
    match
      (if hrefLit.isPrefixOf (c :: cs) then attemptAfter ((c :: cs).drop hrefLit.length)
      else none) with
    | some cap => some cap
    | none => searchFrom hrefLit cs

/-- `extract_current_tags_from_index(index_content, recipe_name)`. -/
def extractCurrentTagsFromIndex (indexContent recipeName : List Char) :
    Option (List Char) :=
  searchFrom ("href=\"".data ++ recipeName ++ "\"".data) indexContent

/-! ## The main pass of the auditor -/

/-- Python `str.replace(needle, repl)` for a non-empty needle: replace every
non-overlapping occurrence, left to right. Fuel-based; `s.length` fuel always
suffices because each step consumes at least one character of `s`. -/
def pyReplaceAllAux (needle repl : List Char) : Nat → List Char → List Char
  | 0, s => s
  | f + 1, s =>
    match findSub needle s with
    | none => s
    | some i => s.take i ++ repl ++ pyReplaceAllAux needle repl f (s.drop (i + needle.length))

/-- Python `str.replace(needle, repl)`. -/
def pyReplaceAll (needle repl s : List Char) : List Char :=
  pyReplaceAllAux needle repl s.length s

/-- Line 65: `recipe_name = recipe_file.replace('.html', '')`. -/
def recipeNameOf (filename : List Char) : List Char :=
  pyReplaceAll ".html".data [] filename

/-- Status recorded in a report block for a recipe. -/
inductive Status where
  | MATCH
  | MISMATCH
  | ERROR
deriving DecidableEq

/-- One per-recipe block of the report: either the two-line ERROR block or the
four-line result block with the extracted tags, the index value and the
computed value. -/
inductive ReportEntry where
  | error (name : List Char)
  | result (name : List Char) (status : Status) (tags : List (List Char))
      (current : Option (List Char)) (formatted : List Char)
deriving DecidableEq

/-- Status of a report entry. -/
def ReportEntry.status : ReportEntry → Status
  | .error _ => .ERROR
  | .result _ s _ _ _ => s

/-- The mutable state of the main loop: the three counters (named `matches`,
`mismatches`, `errors` in the source; `matches` is a Lean keyword), the report
blocks written so far, and the lines printed to standard output so far. -/
structure MainState where
  nMatches : Nat
  nMismatches : Nat
  nErrors : Nat
  reportEntries : List ReportEntry
  stdoutLines : List (List Char)
deriving DecidableEq

/-- Initial state of the loop (lines 60-62). -/
def initState : MainState := ⟨0, 0, 0, [], []⟩

/-- The body of the loop over recipe files (lines 64-95). A file is given by
its name and what reading-and-parsing it comes to. Exactly one counter is
incremented and exactly one report block appended per file. -/
def processFile (indexContent : List Char) (st : MainState)
    (file : List Char × RecipeInput) : MainState :=
  let recipeName := recipeNameOf file.1
  let analyzing := "Analyzing ".data ++ recipeName ++ "...".data
  let extracted := extractTagsFromRecipePage file.1 file.2
  match extracted.1 with
  | none =>
    { st with
      nErrors := st.nErrors + 1
      reportEntries := st.reportEntries ++ [.error recipeName]
      stdoutLines := st.stdoutLines ++ analyzing :: extracted.2 }
  | some tags =>
    let formatted := formatDataTags tags
    let current := extractCurrentTagsFromIndex indexContent recipeName
    if current = some formatted then
      { st with
        nMatches := st.nMatches + 1
        reportEntries := st.reportEntries ++ [.result recipeName .MATCH tags current formatted]
        stdoutLines := st.stdoutLines ++ analyzing :: extracted.2 }
    else
      { st with
        nMismatches := st.nMismatches + 1
        reportEntries := st.reportEntries ++ [.result recipeName .MISMATCH tags current formatted]
        stdoutLines := st.stdoutLines ++ analyzing :: extracted.2 }

/-- The whole main pass over the recipe files. -/
def runMain (indexContent : List Char) (files : List (List Char × RecipeInput)) :
    MainState :=
  files.foldl (processFile indexContent) initState

/-- The report block the loop writes for one file, computed directly. -/
def entryFor (indexContent : List Char) (file : List Char × RecipeInput) :
    ReportEntry :=
  let recipeName := recipeNameOf file.1
  match (extractTagsFromRecipePage file.1 file.2).1 with
  | none => .error recipeName
  | some tags =>
    let formatted := formatDataTags tags
    let current := extractCurrentTagsFromIndex indexContent recipeName
    .result recipeName (if current = some formatted then .MATCH else .MISMATCH)
      tags current formatted

/-- The standard-output lines the loop prints for one file. -/
def stdoutFor (file : List Char × RecipeInput) : List (List Char) :=
  ("Analyzing ".data ++ recipeNameOf file.1 ++ "...".data)
    :: (extractTagsFromRecipePage file.1 file.2).2

/-! ## The auditor as a file-system transformer

The file system is an association list from paths to text contents (first
binding wins). Parsing HTML is done by an external library, abstracted as a
function from file text to `RecipeInput`. -/

abbrev FS := List (List Char × List Char)

/-- Content of a file, if present. -/
def lookupFS (fs : FS) (p : List Char) : Option (List Char) :=
  (fs.find? (fun e => e.1 == p)).map Prod.snd

/-- Opening a path in write mode and writing `c`: replace the binding in
place, or create the file. -/
def writeFS : FS → List Char → List Char → FS
  | [], p, c => [(p, c)]
  | e :: rest, p, c => if e.1 = p then (p, c) :: rest else e :: writeFS rest p c

/-- Path of the distinguished index page. -/
def indexPath : List Char := "index.html".data

/-- Path of the report the auditor writes. -/
def reportPath : List Char := "tag_analysis_report.txt".data

/-- Rendering of a status name into the report. -/
def renderStatus : Status → List Char
  | .MATCH => "MATCH".data
  | .MISMATCH => "MISMATCH".data
  | .ERROR => "ERROR".data

/-- Python `', '.join(parts)`. -/
def commaJoin : List (List Char) → List Char
  | [] => []
  | [t] => t
  | t :: u :: ts => t ++ ", ".data ++ commaJoin (u :: ts)

/-- Python `f"..."` interpolation of the index value: `None` or the string. -/
def renderOpt : Option (List Char) → List Char
  | none => "None".data
  | some s => s

/-- Decimal rendering of a counter. -/
def natChars (n : Nat) : List Char := (Nat.repr n).data

/-- The block of report lines written for one recipe (lines 72-73 and 92-95). -/
def renderEntry : ReportEntry → List Char
  | .error name =>
    "Recipe: ".data ++ name ++ " (ERROR)\n".data
      ++ "No Tags Section found or error processing file\n\n".data
  | .result name s tags cur fmt =>
    "Recipe: ".data ++ name ++ " (".data ++ renderStatus s ++ ")\n".data
      ++ "Tags on recipe page: ".data ++ commaJoin tags ++ "\n".data
      ++ "Current data-tags in index.html: ".data ++ renderOpt cur ++ "\n".data
      ++ "Correct data-tags should be: ".data ++ fmt ++ "\n\n".data

/-- The full text of `tag_analysis_report.txt` (lines 53-58 and 98-102). -/
def renderReport (numFiles : Nat) (st : MainState) : List Char :=
  "Recipe Tag Analysis Report\n=========================\n\n".data
    ++ "Found ".data ++ natChars numFiles ++ " recipe HTML files to analyze\n\n".data
    ++ (st.reportEntries.map renderEntry).flatten
    ++ "Summary:\n".data
    ++ "- Total recipes analyzed: ".data ++ natChars numFiles ++ "\n".data
    ++ "- Matches: ".data ++ natChars st.nMatches ++ "\n".data
    ++ "- Mismatches: ".data ++ natChars st.nMismatches ++ "\n".data
    ++ "- Errors: ".data ++ natChars st.nErrors ++ "\n".data

/-- The whole auditor run as a file-system transformer. Reading `index.html`
fails (uncaught) when absent: the process dies before writing anything. Then
the recipe files are every `*.html` file except `index.html`; each is read
and parsed (the external parser is the parameter `parse`), the main pass
runs, and the report file is the one write performed. -/
def auditorRun (parse : List Char → RecipeInput) (fs : FS) : FS :=
  match lookupFS fs indexPath with
  | none => fs
  | some indexContent =>
    let recipeFiles := (fs.map Prod.fst).filter
      (fun p => ".html".data.isSuffixOf p && !(p == indexPath))
    let files := recipeFiles.map (fun p => (p, parse ((lookupFS fs p).getD [])))
    writeFS fs reportPath (renderReport recipeFiles.length (runMain indexContent files))

/-! ## The header rewriter (`update_headers.py`)

The replacement text, copied verbatim from the triple-quoted `NEW_HEADER`
literal of the source. -/

def NEW_HEADER : List Char :=
  "<body>\n".data
    ++ "    <!-- Header -->\n".data
    ++ "    <div class=\"container-fluid border-divider-b z-30 bg-black bg-opacity-80 absolute top-0 left-0 right-0\">\n".data
    ++ "        <header class=\"container mx-auto flex flex-wrap items-center p-4 px-4\">\n".data
    ++ "            <!-- Logo and Navigation - Mobile version -->\n".data
    ++ "            <div class=\"flex items-center justify-between text-sm md:hidden w-full\" style=\"margin-bottom: 1.1rem;\">\n".data
    ++ "                <a href=\"index\" class=\"hover:text-gray-300 flex items-center whitespace-nowrap\">\n".data
    ++ "                    <img src=\"assets/img/logo.png\" alt=\"Tasty Cooking Logo\" class=\"h-6 w-auto mr-3\">\n".data
    ++ "                    <span class=\"font-cheee-wowie text-xl text-[#e2ded8]\">Tasty Cooking</span>\n".data
    ++ "                </a>\n".data
    ++ "            </div>".data

/-- The literal `<body>` opening the match pattern. -/
def bodyTag : List Char := "<body>".data

/-- The literal mobile-navigation div tag closing the match pattern. -/
def mobileNavDiv : List Char :=
  "<div class=\"flex items-center justify-between text-sm md:hidden\">".data

/-- One step per match of
`re.sub(r'<body>.*?MARKER', NEW_HEADER, content, flags=re.DOTALL)`:
a match starts at the first `<body>` and, non-greedily, ends at the first
marker occurrence at or after that `<body>`'s end (if the first `<body>` has
no marker after it, no later one has either, and the string is unchanged);
the matched span is replaced by `NEW_HEADER` and scanning resumes after the
span. Fuel-based; `s.length` fuel suffices as each match consumes at least
one character. -/
def reSubHeaderAux : Nat → List Char → List Char
  | 0, s => s
  | f + 1, s =>
    match findSub bodyTag s with
    | none => s
    | some i =>
      match findSub mobileNavDiv (s.drop (i + bodyTag.length)) with
      | none => s
      | some j =>
        s.take i ++ NEW_HEADER ++
          reSubHeaderAux f ((s.drop (i + bodyTag.length)).drop (j + mobileNavDiv.length))

/-- The new content the rewriter writes back for one file. -/
def updateHeaderContent (s : List Char) : List Char :=
  reSubHeaderAux s.length s

/-- The fixed absolute directory the rewriter globs. -/
def headerDir : List Char := "/Users/Jim/Documents/GitHub/tasty-cooking/".data

/-- Line 21: keep the globbed files except those whose path ends with
`index.html` or with `sesame-green-beans.html`. -/
def selectHtmlFiles (files : List (List Char)) : List (List Char) :=
  files.filter (fun f =>
    !("index.html".data.isSuffixOf f || "sesame-green-beans.html".data.isSuffixOf f))

/-- The file selection in the words of the claim: every globbed HTML file
except the index page itself and the one named recipe page itself. -/
def claimedSelectHtmlFiles (files : List (List Char)) : List (List Char) :=
  files.filter (fun f =>
    !(f == headerDir ++ "index.html".data
      || f == headerDir ++ "sesame-green-beans.html".data))

/-! ## Lemmas -/

/-- Per-tag normalization: lowering then hyphenating is one character map. -/
theorem normTag_eq (t : List Char) :
    pyReplaceChar ' ' '-' (pyLower t)
      = t.map (fun c => if Char.toLower c = ' ' then '-' else Char.toLower c) := by
  simp [pyReplaceChar, pyLower, List.map_map, Function.comp]

/-- The computed normalized string agrees with the spec's join formula. -/
theorem formatDataTags_eq_specNormalize (T : List (List Char)) :
    formatDataTags T = specNormalize T := by
  induction T with
  | nil => rfl
  | cons t rest ih =>
    cases rest with
    | nil => simp [formatDataTags, specNormalize, joinSpace, normTag_eq]
    | cons u ts =>
      have h : formatDataTags (u :: ts) = specNormalize (u :: ts) := ih
      simp only [formatDataTags, List.map_cons, joinSpace, specNormalize] at h ⊢
      rw [normTag_eq, h]
      simp

/-- An example document: a marker comment inside a paragraph, followed by the
tag container div holding two styled spans. -/
def exampleDoc : List Node :=
  [ .element "p".data [] [.comment " Tags Section ".data],
    .element "div".data ["mt-4".data]
      [ .element "span".data ["inline-flex".data, "items-center".data]
          [.text "Main Course".data],
        .element "span".data ["inline-flex".data] [.text " Spicy ".data] ] ]

/-- Unfolding of the loop body when extraction fails. -/
theorem processFile_none (idx : List Char) (st : MainState)
    (f : List Char × RecipeInput)
    (h : (extractTagsFromRecipePage f.1 f.2).1 = none) :
    processFile idx st f =
      { st with
        nErrors := st.nErrors + 1
        reportEntries := st.reportEntries ++ [.error (recipeNameOf f.1)]
        stdoutLines := st.stdoutLines
          ++ ("Analyzing ".data ++ recipeNameOf f.1 ++ "...".data)
            :: (extractTagsFromRecipePage f.1 f.2).2 } := by
  simp only [processFile, h]

/-- Unfolding of the loop body when extraction succeeds. -/
theorem processFile_some (idx : List Char) (st : MainState)
    (f : List Char × RecipeInput) (tags : List (List Char))
    (h : (extractTagsFromRecipePage f.1 f.2).1 = some tags) :
    processFile idx st f =
      if extractCurrentTagsFromIndex idx (recipeNameOf f.1)
          = some (formatDataTags tags) then
        { st with
          nMatches := st.nMatches + 1
          reportEntries := st.reportEntries
            ++ [.result (recipeNameOf f.1) .MATCH tags
                  (extractCurrentTagsFromIndex idx (recipeNameOf f.1))
                  (formatDataTags tags)]
          stdoutLines := st.stdoutLines
            ++ ("Analyzing ".data ++ recipeNameOf f.1 ++ "...".data)
              :: (extractTagsFromRecipePage f.1 f.2).2 }
      else
        { st with
          nMismatches := st.nMismatches + 1
          reportEntries := st.reportEntries
            ++ [.result (recipeNameOf f.1) .MISMATCH tags
                  (extractCurrentTagsFromIndex idx (recipeNameOf f.1))
                  (formatDataTags tags)]
          stdoutLines := st.stdoutLines
            ++ ("Analyzing ".data ++ recipeNameOf f.1 ++ "...".data)
              :: (extractTagsFromRecipePage f.1 f.2).2 } := by
  simp only [processFile, h]

/-- One file increments exactly one counter. -/
theorem processFile_counts (idx : List Char) (st : MainState)
    (f : List Char × RecipeInput) :
    (processFile idx st f).nMatches + (processFile idx st f).nMismatches
        + (processFile idx st f).nErrors
      = st.nMatches + st.nMismatches + st.nErrors + 1 := by
  cases h : (extractTagsFromRecipePage f.1 f.2).1 with
  | none => rw [processFile_none idx st f h]; simp; omega
  | some tags =>
    rw [processFile_some idx st f tags h]
    split <;> simp <;> omega

/-- One file appends exactly its report block. -/
theorem processFile_entries (idx : List Char) (st : MainState)
    (f : List Char × RecipeInput) :
    (processFile idx st f).reportEntries = st.reportEntries ++ [entryFor idx f] := by
  cases h : (extractTagsFromRecipePage f.1 f.2).1 with
  | none => rw [processFile_none idx st f h]; simp [entryFor, h]
  | some tags =>
    rw [processFile_some idx st f tags h]
    simp only [entryFor, h]
    split <;> simp_all

/-- One file appends exactly its standard-output lines. -/
theorem processFile_stdout (idx : List Char) (st : MainState)
    (f : List Char × RecipeInput) :
    (processFile idx st f).stdoutLines = st.stdoutLines ++ stdoutFor f := by
  cases h : (extractTagsFromRecipePage f.1 f.2).1 with
  | none => rw [processFile_none idx st f h]; simp [stdoutFor]
  | some tags =>
    rw [processFile_some idx st f tags h]
    split <;> simp [stdoutFor]

/-- Counter invariant of the fold, for any starting state. -/
theorem foldl_counts (idx : List Char) (files : List (List Char × RecipeInput)) :
    ∀ st : MainState,
      ((files.foldl (processFile idx) st).nMatches
          + (files.foldl (processFile idx) st).nMismatches
          + (files.foldl (processFile idx) st).nErrors)
        = st.nMatches + st.nMismatches + st.nErrors + files.length := by
  induction files with
  | nil => intro st; simp
  | cons f fs ih =>
    intro st
    simp only [List.foldl_cons, List.length_cons]
    rw [ih]
    have := processFile_counts idx st f
    omega

/-- The report blocks of the fold are one block per file, in order. -/
theorem foldl_entries (idx : List Char) (files : List (List Char × RecipeInput)) :
    ∀ st : MainState,
      (files.foldl (processFile idx) st).reportEntries
        = st.reportEntries ++ files.map (entryFor idx) := by
  induction files with
  | nil => intro st; simp
  | cons f fs ih =>
    intro st
    simp only [List.foldl_cons, List.map_cons]
    rw [ih, processFile_entries idx st f]
    simp

/-- The standard output of the fold is the per-file output, concatenated. -/
theorem foldl_stdout (idx : List Char) (files : List (List Char × RecipeInput)) :
    ∀ st : MainState,
      (files.foldl (processFile idx) st).stdoutLines
        = st.stdoutLines ++ (files.map stdoutFor).flatten := by
  induction files with
  | nil => intro st; simp
  | cons f fs ih =>
    intro st
    simp only [List.foldl_cons, List.map_cons, List.flatten_cons]
    rw [ih, processFile_stdout idx st f]
    simp

/-! ## Claims -/

/-- C1: for every recipe page from which the auditor extracts the ordered tag
list T, the computed data-tags string equals the single-space join of each
tag lower-cased with spaces replaced by hyphens, in the original order; in
particular tags ["Main Course", "Spicy"] yield "main-course spicy". -/
theorem c1_normalization :
    (∀ (path : List Char) (input : RecipeInput) (T : List (List Char)),
        (extractTagsFromRecipePage path input).1 = some T →
        formatDataTags T = specNormalize T)
      ∧ formatDataTags ["Main Course".data, "Spicy".data] = "main-course spicy".data := by
  constructor
  · intro _ _ T _
    exact formatDataTags_eq_specNormalize T
  · decide

/-- Witness for C1 at a concrete page: the extraction hypothesis is
discharged on `exampleDoc`. -/
theorem c1_normalization_witness :
    formatDataTags ["Main Course".data, "Spicy".data]
      = specNormalize ["Main Course".data, "Spicy".data] :=
  c1_normalization.1 "x.html".data (.parsed exampleDoc)
    ["Main Course".data, "Spicy".data] (by decide)

/-- C2: for every recipe processed without error, the recorded status is
MATCH exactly when the computed normalized string equals (string equality)
the data-tags value extracted from the index; in every other case (including
a missing index value) it is MISMATCH. -/
theorem c2_match_iff (idx : List Char) (st : MainState) (path : List Char)
    (input : RecipeInput) (tags : List (List Char))
    (h : (extractTagsFromRecipePage path input).1 = some tags) :
    (processFile idx st (path, input)).reportEntries
        = st.reportEntries
          ++ [ReportEntry.result (recipeNameOf path)
                (if extractCurrentTagsFromIndex idx (recipeNameOf path)
                    = some (formatDataTags tags) then .MATCH else .MISMATCH)
                tags (extractCurrentTagsFromIndex idx (recipeNameOf path))
                (formatDataTags tags)]
      ∧ ((if extractCurrentTagsFromIndex idx (recipeNameOf path)
              = some (formatDataTags tags) then Status.MATCH else Status.MISMATCH)
            = Status.MATCH
          ↔ extractCurrentTagsFromIndex idx (recipeNameOf path)
              = some (formatDataTags tags))
      ∧ ((if extractCurrentTagsFromIndex idx (recipeNameOf path)
              = some (formatDataTags tags) then Status.MATCH else Status.MISMATCH)
            = Status.MISMATCH
          ↔ extractCurrentTagsFromIndex idx (recipeNameOf path)
              ≠ some (formatDataTags tags)) := by
  refine ⟨?_, ?_, ?_⟩
  · rw [processFile_some idx st (path, input) tags h]
    split <;> simp_all
  · split <;> simp_all
  · split <;> simp_all

/-- Witness for C2 on a concrete recipe: the index has no entry, so the
status is MISMATCH. -/
theorem c2_match_iff_witness :
    (processFile [] initState ("x.html".data, .parsed exampleDoc)).reportEntries
        = initState.reportEntries
          ++ [ReportEntry.result (recipeNameOf "x.html".data)
                (if extractCurrentTagsFromIndex [] (recipeNameOf "x.html".data)
                    = some (formatDataTags ["Main Course".data, "Spicy".data])
                  then .MATCH else .MISMATCH)
                ["Main Course".data, "Spicy".data]
                (extractCurrentTagsFromIndex [] (recipeNameOf "x.html".data))
                (formatDataTags ["Main Course".data, "Spicy".data])]
      ∧ ((if extractCurrentTagsFromIndex [] (recipeNameOf "x.html".data)
              = some (formatDataTags ["Main Course".data, "Spicy".data])
            then Status.MATCH else Status.MISMATCH)
            = Status.MATCH
          ↔ extractCurrentTagsFromIndex [] (recipeNameOf "x.html".data)
              = some (formatDataTags ["Main Course".data, "Spicy".data]))
      ∧ ((if extractCurrentTagsFromIndex [] (recipeNameOf "x.html".data)
              = some (formatDataTags ["Main Course".data, "Spicy".data])
            then Status.MATCH else Status.MISMATCH)
            = Status.MISMATCH
          ↔ extractCurrentTagsFromIndex [] (recipeNameOf "x.html".data)
              ≠ some (formatDataTags ["Main Course".data, "Spicy".data])) :=
  c2_match_iff [] initState "x.html".data (.parsed exampleDoc)
    ["Main Course".data, "Spicy".data] (by decide)

/-- C4: after the main pass over any set of recipe files, the three counters
sum to the number of files scanned. -/
theorem c4_counter_sum (idx : List Char)
    (files : List (List Char × RecipeInput)) :
    (runMain idx files).nMatches + (runMain idx files).nMismatches
        + (runMain idx files).nErrors
      = files.length := by
  unfold runMain
  rw [foldl_counts idx files initState]
  simp [initState]

/-- C5: when no marker comment has a following-sibling div, extraction
returns none, the recipe is recorded as ERROR, and only the error counter is
incremented. -/
theorem c5_no_tags_section (idx : List Char) (st : MainState)
    (path : List Char) (doc : List Node)
    (h : firstSome (cands doc none) = none) :
    (extractTagsFromRecipePage path (.parsed doc)).1 = none
      ∧ (processFile idx st (path, .parsed doc)).nErrors = st.nErrors + 1
      ∧ (processFile idx st (path, .parsed doc)).nMatches = st.nMatches
      ∧ (processFile idx st (path, .parsed doc)).nMismatches = st.nMismatches
      ∧ (processFile idx st (path, .parsed doc)).reportEntries
          = st.reportEntries ++ [.error (recipeNameOf path)] := by
  have hx : (extractTagsFromRecipePage path (.parsed doc)).1 = none := by
    simp [extractTagsFromRecipePage, extractTags, h]
  refine ⟨hx, ?_, ?_, ?_, ?_⟩ <;>
    rw [processFile_none idx st (path, .parsed doc) hx]

/-- Witness for C5: a document with no tags section at all. -/
theorem c5_no_tags_section_witness :
    (extractTagsFromRecipePage "x.html".data (.parsed [])).1 = none
      ∧ (processFile [] initState ("x.html".data, .parsed [])).nErrors
          = initState.nErrors + 1
      ∧ (processFile [] initState ("x.html".data, .parsed [])).nMatches
          = initState.nMatches
      ∧ (processFile [] initState ("x.html".data, .parsed [])).nMismatches
          = initState.nMismatches
      ∧ (processFile [] initState ("x.html".data, .parsed [])).reportEntries
          = initState.reportEntries ++ [.error (recipeNameOf "x.html".data)] :=
  c5_no_tags_section [] initState "x.html".data [] rfl

/-- C6: when extraction succeeds but the index has no matching anchor, the
comparison value is none, which differs from the non-none computed value, so
the recipe is counted as a MISMATCH (not an ERROR). -/
theorem c6_missing_index_entry (idx : List Char) (st : MainState)
    (path : List Char) (input : RecipeInput) (tags : List (List Char))
    (h : (extractTagsFromRecipePage path input).1 = some tags)
    (hidx : extractCurrentTagsFromIndex idx (recipeNameOf path) = none) :
    ((none : Option (List Char)) == some (formatDataTags tags)) = false
      ∧ (processFile idx st (path, input)).nMismatches = st.nMismatches + 1
      ∧ (processFile idx st (path, input)).nMatches = st.nMatches
      ∧ (processFile idx st (path, input)).nErrors = st.nErrors
      ∧ (processFile idx st (path, input)).reportEntries
          = st.reportEntries
            ++ [.result (recipeNameOf path) .MISMATCH tags none
                  (formatDataTags tags)] := by
  have hne : extractCurrentTagsFromIndex idx (recipeNameOf path)
      ≠ some (formatDataTags tags) := by rw [hidx]; exact Option.noConfusion
  refine ⟨rfl, ?_, ?_, ?_, ?_⟩ <;>
    · rw [processFile_some idx st (path, input) tags h, if_neg hne]
      try simp [hidx]

/-- Witness for C6: the example page against an empty index content. -/
theorem c6_missing_index_entry_witness :
    ((none : Option (List Char))
        == some (formatDataTags ["Main Course".data, "Spicy".data])) = false
      ∧ (processFile [] initState ("x.html".data, .parsed exampleDoc)).nMismatches
          = initState.nMismatches + 1
      ∧ (processFile [] initState ("x.html".data, .parsed exampleDoc)).nMatches
          = initState.nMatches
      ∧ (processFile [] initState ("x.html".data, .parsed exampleDoc)).nErrors
          = initState.nErrors
      ∧ (processFile [] initState ("x.html".data, .parsed exampleDoc)).reportEntries
          = initState.reportEntries
            ++ [.result (recipeNameOf "x.html".data) .MISMATCH
                  ["Main Course".data, "Spicy".data] none
                  (formatDataTags ["Main Course".data, "Spicy".data])] :=
  c6_missing_index_entry [] initState "x.html".data (.parsed exampleDoc)
    ["Main Course".data, "Spicy".data] (by decide) (by decide)

/-- C7: a file whose read or parse raises is caught: the error is logged to
standard output, an ERROR block is recorded for it, and every following file
is still processed (one report block per file, in order). -/
theorem c7_error_continues (idx : List Char)
    (xs ys : List (List Char × RecipeInput)) (path msg : List Char) :
    extractTagsFromRecipePage path (.failure msg) = (none, [errorLine path msg])
      ∧ (runMain idx (xs ++ (path, .failure msg) :: ys)).reportEntries
          = xs.map (entryFor idx)
            ++ ReportEntry.error (recipeNameOf path) :: ys.map (entryFor idx)
      ∧ (runMain idx (xs ++ (path, .failure msg) :: ys)).reportEntries.length
          = xs.length + 1 + ys.length
      ∧ errorLine path msg
          ∈ (runMain idx (xs ++ (path, .failure msg) :: ys)).stdoutLines := by
  have hent : (runMain idx (xs ++ (path, .failure msg) :: ys)).reportEntries
      = xs.map (entryFor idx)
        ++ ReportEntry.error (recipeNameOf path) :: ys.map (entryFor idx) := by
    unfold runMain
    rw [foldl_entries]
    simp [initState, entryFor, extractTagsFromRecipePage]
  refine ⟨rfl, hent, ?_, ?_⟩
  · rw [hent]; simp; omega
  · unfold runMain
    rw [foldl_stdout]
    simp only [initState, List.nil_append, List.mem_flatten]
    refine ⟨stdoutFor (path, .failure msg), List.mem_map_of_mem _ (by simp), ?_⟩
    simp [stdoutFor, extractTagsFromRecipePage]

/-- An example document whose tags section exists but holds no tag spans. -/
def emptyTagsDoc : List Node :=
  [ .element "p".data [] [.comment "Tags Section".data],
    .element "div".data [] [.text "no tags here".data] ]

/-- C10: a page with a detected tags section but no matching span (or only
spans with empty stripped text) yields the empty tag list (not none), the
empty computed string, and a MATCH or MISMATCH classification, never ERROR. -/
theorem c10_empty_tags (idx : List Char) (st : MainState) (path : List Char)
    (doc : List Node) (div : Node)
    (h : firstSome (cands doc none) = some div)
    (hsp : spanTexts div = []) :
    extractTags doc = some []
      ∧ formatDataTags [] = []
      ∧ (processFile idx st (path, .parsed doc)).nErrors = st.nErrors
      ∧ (processFile idx st (path, .parsed doc)).reportEntries
          = st.reportEntries
            ++ [.result (recipeNameOf path)
                  (if extractCurrentTagsFromIndex idx (recipeNameOf path)
                      = some [] then .MATCH else .MISMATCH)
                  [] (extractCurrentTagsFromIndex idx (recipeNameOf path)) []]
      ∧ ((if extractCurrentTagsFromIndex idx (recipeNameOf path)
              = some [] then Status.MATCH else Status.MISMATCH) = Status.MATCH
          ∨ (if extractCurrentTagsFromIndex idx (recipeNameOf path)
              = some [] then Status.MATCH else Status.MISMATCH) = Status.MISMATCH) := by
  have hext : extractTags doc = some [] := by
    simp [extractTags, h, hsp]
  have hx : (extractTagsFromRecipePage path (.parsed doc)).1 = some [] := by
    simp [extractTagsFromRecipePage, hext]
  refine ⟨hext, rfl, ?_, ?_, ?_⟩
  · rw [processFile_some idx st (path, .parsed doc) [] hx]
    split <;> rfl
  · rw [processFile_some idx st (path, .parsed doc) [] hx]
    have hfmt : formatDataTags [] = [] := rfl
    split <;> simp_all
  · split <;> simp

/-- Witness for C10: a page whose tags section div holds no span at all. -/
theorem c10_empty_tags_witness :
    extractTags emptyTagsDoc = some []
      ∧ formatDataTags [] = []
      ∧ (processFile [] initState ("x.html".data, .parsed emptyTagsDoc)).nErrors
          = initState.nErrors
      ∧ (processFile [] initState ("x.html".data, .parsed emptyTagsDoc)).reportEntries
          = initState.reportEntries
            ++ [.result (recipeNameOf "x.html".data)
                  (if extractCurrentTagsFromIndex [] (recipeNameOf "x.html".data)
                      = some [] then .MATCH else .MISMATCH)
                  [] (extractCurrentTagsFromIndex [] (recipeNameOf "x.html".data)) []]
      ∧ ((if extractCurrentTagsFromIndex [] (recipeNameOf "x.html".data)
              = some [] then Status.MATCH else Status.MISMATCH) = Status.MATCH
          ∨ (if extractCurrentTagsFromIndex [] (recipeNameOf "x.html".data)
              = some [] then Status.MATCH else Status.MISMATCH) = Status.MISMATCH) :=
  c10_empty_tags [] initState "x.html".data emptyTagsDoc
    (.element "div".data [] [.text "no tags here".data]) rfl rfl

/-- A found occurrence fits inside the string. -/
theorem findSub_bound (n : List Char) :
    ∀ (s : List Char) (i : Nat), findSub n s = some i → i + n.length ≤ s.length := by
  intro s
  induction s with
  | nil =>
    intro i h
    unfold findSub at h
    split at h
    · rename_i hp
      cases h
      have hn : n = [] := by
        simpa using List.isPrefixOf_iff_prefix.mp hp
      simp [hn]
    · exact absurd h (by simp)
  | cons c cs ih =>
    intro i h
    unfold findSub at h
    split at h
    · rename_i hp
      cases h
      simpa using (List.isPrefixOf_iff_prefix.mp hp).length_le
    · rcases Option.map_eq_some'.mp h with ⟨i', hi', rfl⟩
      have := ih i' hi'
      simp only [List.length_cons]
      omega

/-- The rewriter's recursion on the empty string, at any fuel. -/
theorem reSubHeaderAux_nil (f : Nat) : reSubHeaderAux f [] = [] := by
  cases f with
  | zero => rfl
  | succ f => rfl

/-- The fuel does not matter once it covers the string's length. -/
theorem reSubHeaderAux_fuel :
    ∀ (f g : Nat) (s : List Char), s.length ≤ f → s.length ≤ g →
      reSubHeaderAux f s = reSubHeaderAux g s := by
  intro f
  induction f with
  | zero =>
    intro g s hf _
    have : s = [] := List.length_eq_zero.mp (Nat.le_zero.mp hf)
    subst this
    rw [reSubHeaderAux_nil, reSubHeaderAux_nil]
  | succ f ih =>
    intro g s hf hg
    cases s with
    | nil => rw [reSubHeaderAux_nil, reSubHeaderAux_nil]
    | cons c cs =>
      cases g with
      | zero => simp at hg
      | succ g =>
        show reSubHeaderAux (f + 1) (c :: cs) = reSubHeaderAux (g + 1) (c :: cs)
        unfold reSubHeaderAux
        cases hb : findSub bodyTag (c :: cs) with
        | none => rfl
        | some i =>
          cases hd : findSub mobileNavDiv ((c :: cs).drop (i + bodyTag.length)) with
          | none => simp [hd]
          | some j =>
            have hbound := findSub_bound bodyTag (c :: cs) i hb
            have h6 : bodyTag.length = 6 := rfl
            have hlen :
                (((c :: cs).drop (i + bodyTag.length)).drop
                    (j + mobileNavDiv.length)).length ≤ cs.length := by
              simp only [List.length_drop, List.length_cons] at *
              omega
            simp only [List.length_cons] at hf hg
            have hrec := ih g
              (((c :: cs).drop (i + bodyTag.length)).drop (j + mobileNavDiv.length))
              (by omega) (by omega)
            simp [hd]
            simpa using hrec

/-- Fuel already adequate at the top level. -/
theorem updateHeaderContent_no_body (s : List Char)
    (h : findSub bodyTag s = none) : updateHeaderContent s = s := by
  unfold updateHeaderContent
  cases s with
  | nil => exact reSubHeaderAux_nil _
  | cons c cs =>
    show reSubHeaderAux (cs.length + 1) (c :: cs) = c :: cs
    unfold reSubHeaderAux
    simp [h]

/-- No marker after the first body tag: the content is unchanged. -/
theorem updateHeaderContent_no_div (s : List Char) (i : Nat)
    (hb : findSub bodyTag s = some i)
    (hd : findSub mobileNavDiv (s.drop (i + bodyTag.length)) = none) :
    updateHeaderContent s = s := by
  unfold updateHeaderContent
  cases s with
  | nil => exact reSubHeaderAux_nil _
  | cons c cs =>
    show reSubHeaderAux (cs.length + 1) (c :: cs) = c :: cs
    unfold reSubHeaderAux
    cases hb' : findSub bodyTag (c :: cs) with
    | none => rfl
    | some i' =>
      rw [hb] at hb'
      obtain rfl : i' = i := (Option.some.inj hb').symm
      simp [hd]

/-- A full match: the span from the matched body tag to the end of the
matched marker is replaced by the new header, and rewriting continues on the
remainder. -/
theorem updateHeaderContent_match (s : List Char) (i j : Nat)
    (hb : findSub bodyTag s = some i)
    (hd : findSub mobileNavDiv (s.drop (i + bodyTag.length)) = some j) :
    updateHeaderContent s
      = s.take i ++ NEW_HEADER
        ++ updateHeaderContent
            ((s.drop (i + bodyTag.length)).drop (j + mobileNavDiv.length)) := by
  cases s with
  | nil =>
    have : findSub bodyTag [] = none := rfl
    rw [this] at hb
    exact absurd hb (by simp)
  | cons c cs =>
    have hbound := findSub_bound bodyTag (c :: cs) i hb
    have h6 : bodyTag.length = 6 := rfl
    have hlen :
        (((c :: cs).drop (i + bodyTag.length)).drop
            (j + mobileNavDiv.length)).length ≤ cs.length := by
      simp only [List.length_drop, List.length_cons] at *
      omega
    show reSubHeaderAux (cs.length + 1) (c :: cs) = _
    unfold reSubHeaderAux
    cases hb' : findSub bodyTag (c :: cs) with
    | none => rw [hb] at hb'; exact absurd hb' (by simp)
    | some i' =>
      rw [hb] at hb'
      injection hb' with hii
      subst hii
      have hfuel := reSubHeaderAux_fuel cs.length
        (((c :: cs).drop (i + bodyTag.length)).drop (j + mobileNavDiv.length)).length
        (((c :: cs).drop (i + bodyTag.length)).drop (j + mobileNavDiv.length))
        hlen (le_refl _)
      simp only [hd, updateHeaderContent]
      rw [hfuel]

/-- A concrete file content: one character of prefix before the matched span,
one character of suffix after it. -/
def c3ex : List Char := 'X' :: (bodyTag ++ mobileNavDiv ++ ['Y'])

/-- C3 counterexample: the content matches the pattern, yet what is written
back is not `NEW_HEADER` followed by the content after the matched span — the
prefix before the span ('X') is preserved in front. -/
theorem c3_counterexample :
    findSub bodyTag c3ex = some 1
      ∧ findSub mobileNavDiv (c3ex.drop (1 + bodyTag.length)) = some 0
      ∧ updateHeaderContent c3ex = 'X' :: (NEW_HEADER ++ ['Y'])
      ∧ (updateHeaderContent c3ex == NEW_HEADER ++ ['Y']) = false := by
  refine ⟨by decide, by decide, by decide, by decide⟩

/-- C3 as amended: the rewriter leaves a file with no pattern match
unchanged; on a match it writes the content before the match, then
`NEW_HEADER`, then the content after the matched span rewritten the same way
(so only for a match at the very start of the file is the output exactly
`NEW_HEADER` plus the content after the span). -/
theorem c3_amended (s : List Char) :
    (findSub bodyTag s = none → updateHeaderContent s = s)
      ∧ ∀ i, findSub bodyTag s = some i →
          (findSub mobileNavDiv (s.drop (i + bodyTag.length)) = none →
            updateHeaderContent s = s)
          ∧ ∀ j, findSub mobileNavDiv (s.drop (i + bodyTag.length)) = some j →
              updateHeaderContent s
                = s.take i ++ NEW_HEADER
                  ++ updateHeaderContent
                      ((s.drop (i + bodyTag.length)).drop (j + mobileNavDiv.length)) :=
  ⟨fun h => updateHeaderContent_no_body s h,
    fun i hb =>
      ⟨fun hd => updateHeaderContent_no_div s i hb hd,
        fun j hd => updateHeaderContent_match s i j hb hd⟩⟩

/-- Witness for C3 as amended, on the concrete content `c3ex`: both
hypotheses are discharged and the rewritten remainder ('Y') is unchanged. -/
theorem c3_amended_witness :
    findSub bodyTag c3ex = some 1
      ∧ findSub mobileNavDiv (c3ex.drop (1 + bodyTag.length)) = some 0
      ∧ updateHeaderContent c3ex
          = c3ex.take 1 ++ NEW_HEADER
            ++ updateHeaderContent
                ((c3ex.drop (1 + bodyTag.length)).drop (0 + mobileNavDiv.length)) :=
  ⟨by decide, by decide,
    ((c3_amended c3ex).2 1 (by decide)).2 0 (by decide)⟩

/-- A globbed path that is neither the index page nor the named recipe page,
but still ends with `index.html`. -/
def c8ex : List Char := headerDir ++ "spicy-index.html".data

/-- C8 counterexample: an HTML file of the directory that is neither the
index page nor sesame-green-beans is nevertheless excluded, because the code
tests path suffixes (`str.endswith`), not equality with the two files. -/
theorem c8_counterexample :
    selectHtmlFiles [c8ex] = []
      ∧ claimedSelectHtmlFiles [c8ex] = [c8ex]
      ∧ (c8ex == headerDir ++ "index.html".data) = false
      ∧ (c8ex == headerDir ++ "sesame-green-beans.html".data) = false
      ∧ ".html".data.isSuffixOf c8ex = true := by
  refine ⟨by decide, by decide, by decide, by decide, by decide⟩

/-- C8 as amended: the selected set is exactly the globbed files whose path
ends neither with `index.html` nor with `sesame-green-beans.html`; in
particular the index page and the named recipe page themselves are never
selected. -/
theorem c8_amended (files : List (List Char)) (f : List Char) :
    (f ∈ selectHtmlFiles files
        ↔ f ∈ files
          ∧ "index.html".data.isSuffixOf f = false
          ∧ "sesame-green-beans.html".data.isSuffixOf f = false)
      ∧ (selectHtmlFiles files).elem (headerDir ++ "index.html".data) = false
      ∧ (selectHtmlFiles files).elem (headerDir ++ "sesame-green-beans.html".data)
          = false := by
  have hidx : "index.html".data.isSuffixOf (headerDir ++ "index.html".data)
      = true := by decide
  have hses : "sesame-green-beans.html".data.isSuffixOf
      (headerDir ++ "sesame-green-beans.html".data) = true := by decide
  refine ⟨?_, ?_, ?_⟩
  · simp [selectHtmlFiles, List.mem_filter]
  · rw [← Bool.not_eq_true, List.elem_iff]
    intro hmem
    have h := (List.mem_filter.mp hmem).2
    simp [hidx] at h
  · rw [← Bool.not_eq_true, List.elem_iff]
    intro hmem
    have h := (List.mem_filter.mp hmem).2
    simp [hses] at h

/-- Writing one path leaves every other path's content unchanged. -/
theorem writeFS_lookup_other :
    ∀ (fs : FS) (p c q : List Char), q ≠ p →
      lookupFS (writeFS fs p c) q = lookupFS fs q := by
  intro fs
  induction fs with
  | nil =>
    intro p c q hq
    have hpq : (p == q) = false := beq_eq_false_iff_ne.mpr (fun h => hq h.symm)
    simp [writeFS, lookupFS, List.find?, hpq]
  | cons e rest ih =>
    intro p c q hq
    by_cases he : e.1 = p
    · simp only [writeFS, if_pos he]
      have hpq : (p == q) = false := by
        simp [beq_iff_eq]
        exact fun h => hq h.symm
      have heq : (e.1 == q) = false := by
        rw [he]; exact hpq
      simp [lookupFS, List.find?, hpq, heq]
    · simp only [writeFS, if_neg he]
      by_cases heq : e.1 = q
      · simp [lookupFS, List.find?, heq]
      · have h1 : (e.1 == q) = false := by simpa using heq
        simp [lookupFS, List.find?, h1]
        have := ih p c q hq
        simpa [lookupFS] using this

/-- C9: the tag auditor modifies no file other than its report: after a run,
every path other than `tag_analysis_report.txt` (in particular every HTML
file) has its original content. -/
theorem c9_frame (parse : List Char → RecipeInput) (fs : FS) (p : List Char) :
    (p ≠ reportPath → lookupFS (auditorRun parse fs) p = lookupFS fs p)
      ∧ (".html".data.isSuffixOf p = true →
          lookupFS (auditorRun parse fs) p = lookupFS fs p) := by
  have frame : p ≠ reportPath →
      lookupFS (auditorRun parse fs) p = lookupFS fs p := by
    intro hp
    unfold auditorRun
    cases lookupFS fs indexPath with
    | none => rfl
    | some idx => exact writeFS_lookup_other fs reportPath _ p hp
  refine ⟨frame, fun hsuf => frame ?_⟩
  intro hp
  rw [hp] at hsuf
  exact absurd hsuf (by decide)

/-- Witness for C9: a small file system with an index page and one recipe
page; the recipe page's content is untouched by the run. -/
theorem c9_frame_witness :
    "a.html".data ≠ reportPath
      ∧ lookupFS
          (auditorRun (fun _ => RecipeInput.parsed [])
            [(indexPath, []), ("a.html".data, "<p>hi</p>".data)])
          "a.html".data
        = lookupFS [(indexPath, []), ("a.html".data, "<p>hi</p>".data)]
            "a.html".data :=
  ⟨by decide,
    (c9_frame (fun _ => RecipeInput.parsed [])
        [(indexPath, []), ("a.html".data, "<p>hi</p>".data)] "a.html".data).1
      (by decide)⟩

end TastyCooking
